import Mathlib

/-!
Tardi Eats payment relay: checkout and webhook reconciliation.

A shallow embedding of `functions/index.js`: the `POST /v1/checkout` handler, the
`POST /webhook` handler and the two Firestore helpers `processCheckout` and
`updateOrder`, followed by theorems about the records they build and the writes
they issue.

JavaScript values are embedded as a JSON tree plus `undefined`.  Code that may
throw returns `Except Thrown _`; an `async` function is embedded by the outcome
its promise settles with.
-/

namespace TardiEats

/-! Section: JavaScript values -/

/-- JavaScript values that can reach the handlers: JSON data, `undefined` and `NaN`.
A finite number is given by its exact rational value, an object by the sequence of
its members (a later member with the same key wins, as in `JSON.parse`). -/
inductive Value where
  | undefined
  | null
  | bool (b : Bool)
  | num (x : ℚ)
  | nan
  | str (s : String)
  | arr (items : List Value)
  | obj (fields : List (String × Value))

/-- What a `throw` or a rejected promise carries. -/
inductive Thrown where
  | typeError
  | referenceError (name : String)
  | object (error : Value)

/-- Own property lookup in a member sequence; the last member with the key wins. -/
def getField : List (String × Value) → String → Option Value
  | [], _ => none
  | (key, v) :: rest, k =>
    match getField rest k with
    | some w => some w
    | none => if key = k then some v else none

/-- Whether some member has key `k`. -/
def hasField (fs : List (String × Value)) (k : String) : Bool :=
  fs.any (fun p => decide (p.1 = k))

/-- Property definition `o[k] = v` on a member sequence: an existing key keeps its
position and takes the new value, a new key is added at the end. -/
def setField (fs : List (String × Value)) (k : String) (v : Value) :
    List (String × Value) :=
  if hasField fs k then fs.map (fun p => (p.1, if p.1 = k then v else p.2))
  else fs ++ [(k, v)]

/-- Index keys `"0"`, `"1"`, ... paired with the items of an array. -/
def indexEntries (xs : List Value) : List (String × Value) :=
  xs.enum.map (fun p => (toString p.1, p.2))

/-- Own enumerable properties of a value, in order: the members of an object, the
indexed items of an array, the indexed characters of a string (code points; they
agree with JavaScript code units on the Basic Multilingual Plane), nothing for the
other values. -/
def ownEnumerable : Value → List (String × Value)
  | .obj fs => fs
  | .arr xs => indexEntries xs
  | .str s => indexEntries (s.toList.map (fun c => Value.str (String.singleton c)))
  | _ => []

/-- Object spread `{...src}` onto the members defined so far. -/
def spread (target : List (String × Value)) (src : Value) : List (String × Value) :=
  (ownEnumerable src).foldl (fun acc p => setField acc p.1 p.2) target

/-- Remaining members `k: v, ...` of an object literal, defined in order. -/
def defineAll (target : List (String × Value)) (members : List (String × Value)) :
    List (String × Value) :=
  members.foldl (fun acc p => setField acc p.1 p.2) target

/-- Whether a value is `undefined` or `null`. -/
def isNullish : Value → Bool
  | .undefined => true
  | .null => true
  | _ => false

/-- Property read `v.k`.  Reading from `undefined` or `null` throws a `TypeError`;
otherwise the own enumerable property is returned, or `undefined` when there is
none.  Members inherited from a prototype and `length` are not part of the
embedding: the handlers read neither. -/
def getProp (v : Value) (k : String) : Except Thrown Value :=
  if isNullish v then .error .typeError
  else match getField (ownEnumerable v) k with
    | some x => .ok x
    | none => .ok .undefined

/-- JavaScript truthiness (`ToBoolean`). -/
def truthy : Value → Bool
  | .undefined => false
  | .null => false
  | .bool b => b
  | .num x => decide (x ≠ 0)
  | .nan => false
  | .str s => decide (s ≠ "")
  | .arr _ => true
  | .obj _ => true

/-- Strict equality `v === "lit"` against a string literal. -/
def strictEqStr (v : Value) (lit : String) : Bool :=
  match v with
  | .str s => decide (s = lit)
  | _ => false

/-- The error object a `catch` clause receives: the rejection value itself, or a
runtime `TypeError` / `ReferenceError`, which has no own enumerable property. -/
def errorObject : Thrown → Value
  | .typeError => .obj []
  | .referenceError _ => .obj []
  | .object e => e

/-- A `try { body } catch (error) { handler }` statement. -/
def tryCatch {α : Type} (body : Except Thrown α) (handler : Thrown → Except Thrown α) :
    Except Thrown α :=
  match body with
  | .ok a => .ok a
  | .error e => handler e

/-- A promise, given by the outcome it settles with. -/
structure Promise (α : Type) where
  settled : Except Thrown α

/-- Calling an `async` function without `await`: the call itself always completes
normally and yields a promise; an exception raised in the body only rejects that
promise. -/
def asyncCall {α : Type} (body : Except Thrown α) : Except Thrown (Promise α) :=
  .ok ⟨body⟩

/-! Section: The document store -/

/-- The two collections the relay writes to. -/
inductive Collection where
  | Transactions
  | Orders

/-- Store state: each collection maps a document key to its document. -/
structure Store where
  transactions : String → Option Value
  orders : String → Option Value

/-- The store with no document. -/
def Store.empty : Store := ⟨fun _ => none, fun _ => none⟩

/-- The document under key `k` of collection `c`, if any. -/
def Store.get (s : Store) (c : Collection) (k : String) : Option Value :=
  match c with
  | .Transactions => s.transactions k
  | .Orders => s.orders k

/-- The store with the document under key `k` of collection `c` replaced by `d`. -/
def Store.put (s : Store) (c : Collection) (k : String) (d : Value) : Store :=
  match c with
  | .Transactions => { s with transactions := fun j => if j = k then some d else s.transactions j }
  | .Orders => { s with orders := fun j => if j = k then some d else s.orders j }

/-- Both collections hold documents under exactly the same keys. -/
def SameKeys (s : Store) : Prop :=
  ∀ k, (s.transactions k).isSome = (s.orders k).isSome

/-- A write queued on a batch. -/
inductive Write where
  | set (c : Collection) (key : String) (data : Value)
  | update (c : Collection) (key : String) (data : Value)

/-- Argument checks of the Firestore client, which is not part of the repository and
is left as a parameter: `docPath id` is the key `collection.doc(id)` denotes, or
`none` when the client rejects `id`; `validSet` and `validUpdate` say whether the
client accepts a value as the data of `batch.set` and of `batch.update`. -/
structure Firestore where
  docPath : Value → Option String
  validSet : Value → Bool
  validUpdate : Value → Bool

/-- The error the client throws for an argument it rejects. -/
def argumentError : Thrown := .object (.obj [])

/-- The error a commit rejects with when an updated document does not exist
(status code 5, not found). -/
def notFoundError : Thrown := .object (.obj [("code", .num 5)])

/-- Expression `admin.firestore(app).collection(c).doc(id)`. -/
def Firestore.doc (fs : Firestore) (c : Collection) (id : Value) :
    Except Thrown (Collection × String) :=
  match fs.docPath id with
  | some k => .ok (c, k)
  | none => .error argumentError

/-- Call `batch.set(ref, data)`: queues a write that creates or fully replaces the
document. -/
def Firestore.batchSet (fs : Firestore) (batch : List Write) (ref : Collection × String)
    (data : Value) : Except Thrown (List Write) :=
  if fs.validSet data then .ok (batch ++ [Write.set ref.1 ref.2 data])
  else .error argumentError

/-- Call `batch.update(ref, data)`: queues a write that changes the given fields of
an existing document. -/
def Firestore.batchUpdate (fs : Firestore) (batch : List Write) (ref : Collection × String)
    (data : Value) : Except Thrown (List Write) :=
  if fs.validUpdate data then .ok (batch ++ [Write.update ref.1 ref.2 data])
  else .error argumentError

/-- Modelled from the spec: the effect of one queued write of the document store
(Firestore, not part of the repository).  A set creates or replaces the whole
document; an update overwrites the given fields of the document and fails when the
document does not exist (update semantics, not upsert). -/
def applyWrite (s : Store) : Write → Option Store
  | .set c k d => some (s.put c k d)
  | .update c k d =>
    match s.get c k with
    | some doc => some (s.put c k (.obj (spread (ownEnumerable doc) d)))
    | none => none

/-- Modelled from the spec: the queued writes of a batch applied in order, all or
nothing. -/
def applyAll (s : Store) : List Write → Option Store
  | [] => some s
  | w :: ws =>
    match applyWrite s w with
    | some next => applyAll next ws
    | none => none

/-- Modelled from the spec: `batch.commit()` of the document store.  The commit is
atomic: it yields the store with every write applied, or rejects and leaves the store
as it was.  `commitError` is the error the backend rejects this commit with for
reasons of its own (`none` when it accepts it). -/
def commit (commitError : Option Value) (s : Store) (batch : List Write) :
    Except Thrown Store :=
  match commitError with
  | some e => .error (.object e)
  | none =>
    match applyAll s batch with
    | some next => .ok next
    | none => .error notFoundError

/-- The store once an asynchronous store call has settled: the committed store, or
the old one when the call rejected. -/
def settle (s : Store) (r : Except Thrown Store) : Store :=
  match r with
  | .ok next => next
  | .error _ => s

/-- Body of `processCheckout(transaction, order)`: the outcome its promise settles
with. -/
def processCheckout (fs : Firestore) (commitError : Option Value) (s : Store)
    (transaction order : Value) : Except Thrown Store := do
  let batch : List Write := []
  let transactionId ← getProp transaction "id"
  let transactionRef ← fs.doc .Transactions transactionId
  let batch ← fs.batchSet batch transactionRef transaction
  let orderId ← getProp order "id"
  let orderRef ← fs.doc .Orders orderId
  let batch ← fs.batchSet batch orderRef order
  commit commitError s batch

/-- Body of `updateOrder(reference, {transactionStatus, orderStatus})`: the outcome
its promise settles with. -/
def updateOrder (fs : Firestore) (commitError : Option Value) (s : Store)
    (reference transactionStatus orderStatus : Value) : Except Thrown Store := do
  let batch : List Write := []
  let transactionRef ← fs.doc .Transactions reference
  let batch ← fs.batchUpdate batch transactionRef (.obj [("status", transactionStatus)])
  let orderRef ← fs.doc .Orders reference
  let batch ← fs.batchUpdate batch orderRef (.obj [("status", orderStatus)])
  commit commitError s batch

/-! Section: `POST /v1/checkout` -/

/-- An HTTP response sent through `res`. -/
structure Response where
  status : Value
  body : Value

/-- What a handler run leaves behind: the store once its store call has settled, and
the response it sent, or what it raised instead of responding. -/
structure Run where
  store : Store
  reply : Except Thrown Response

/-- The `transaction` object literal built from the gateway result.  `jsDiv` is the
JavaScript `/` operator on numbers (IEEE 754 double division), left as a parameter. -/
def buildTransaction (jsDiv : Value → Value → Value) (result : Value) :
    Except Thrown Value := do
  let id ← getProp result "reference"
  let amount ← getProp result "amount"
  let transaction_date ← getProp result "transaction_date"
  let status ← getProp result "status"
  let reference ← getProp result "reference"
  let channel ← getProp result "channel"
  let message ← getProp result "message"
  let fees ← getProp result "fees"
  let gateway_response ← getProp result "gateway_response"
  let metadata ← getProp result "metadata"
  let user_id ← getProp metadata "user_id"
  let order_id ← getProp result "reference"
  pure (.obj (defineAll [] [("id", id), ("amount", amount),
    ("transaction_date", transaction_date), ("status", status), ("reference", reference),
    ("channel", channel), ("message", message), ("fees", jsDiv fees (.num 100)),
    ("gateway_response", gateway_response), ("user_id", user_id), ("order_id", order_id)]))

/-- The `order` object literal: the draft spread first, then the six members the
handler defines.  `now` is the value of `Date.now()`. -/
def buildOrder (now : Value) (orderFromRequest transaction result : Value) :
    Except Thrown Value := do
  let fields := spread [] orderFromRequest
  let id ← getProp transaction "id"
  let transaction_ref ← getProp transaction "id"
  let metadata ← getProp result "metadata"
  let user_id ← getProp metadata "user_id"
  let order_date ← getProp transaction "transaction_date"
  pure (.obj (defineAll fields [("id", id), ("transaction_ref", transaction_ref),
    ("status", .str "pending"), ("user_id", user_id), ("order_date", order_date),
    ("date", now)]))

/-- The transaction and order the handler builds from the gateway result and the
order draft of the request. -/
def checkoutRecords (jsDiv : Value → Value → Value) (now : Value)
    (result orderFromRequest : Value) : Except Thrown (Value × Value) := do
  let transaction ← buildTransaction jsDiv result
  let order ← buildOrder now orderFromRequest transaction result
  pure (transaction, order)

/-- The success reply `res.status(200).json({status, message, reference})`. -/
def checkoutSuccess (result : Value) : Except Thrown Response := do
  let status ← getProp result "status"
  let message ← getProp result "message"
  let reference ← getProp result "reference"
  pure ⟨.num 200, .obj (defineAll [] [("status", status), ("message", message),
    ("reference", reference)])⟩

/-- The `.then` callback of the charge request.  Inside the `try` block
`processCheckout` is called without `await`, so the block only sees the call return
a promise. -/
def checkoutThen (fs : Firestore) (jsDiv : Value → Value → Value) (now : Value)
    (commitError : Option Value) (data response : Value) (s : Store) : Run :=
  match (do
      let responseData ← getProp response "data"
      let result ← getProp responseData "data"
      let orderFromRequest ← getProp data "order"
      let records ← checkoutRecords jsDiv now result orderFromRequest
      pure (result, records)) with
  | .error e => ⟨s, .error e⟩
  | .ok (result, transaction, order) =>
    let persisted := processCheckout fs commitError s transaction order
    ⟨settle s persisted,
      tryCatch
        (do
          let _ ← asyncCall persisted
          checkoutSuccess result)
        (fun error => .ok ⟨.num 500, errorObject error⟩)⟩

/-- The `.catch` callback of the charge request:
`res.status(error.response.status).json(error.response.data)`. -/
def checkoutCatch (e : Thrown) : Except Thrown Response := do
  let error := errorObject e
  let response ← getProp error "response"
  let status ← getProp response "status"
  let response ← getProp error "response"
  let data ← getProp response "data"
  pure ⟨status, data⟩

/-- The `POST /v1/checkout` handler on request body `body`.  `gateway` is the outcome
of the charge request: the axios response, or the error it rejects with. -/
def checkoutHandler (fs : Firestore) (jsDiv : Value → Value → Value) (now : Value)
    (commitError : Option Value) (gateway : Except Value Value) (body : Value)
    (s : Store) : Run :=
  match getProp body "charge" with
  | .error e => ⟨s, .error e⟩
  | .ok _ =>
    match gateway with
    | .error error => ⟨s, checkoutCatch (.object error)⟩
    | .ok response =>
      let run := checkoutThen fs jsDiv now commitError body response s
      match run.reply with
      | .ok _ => run
      | .error e => ⟨run.store, checkoutCatch e⟩

/-! Section: `POST /webhook` -/

/-- What an identifier in scope is bound to: a JSON value, or a host object or
function (request, response writer, module, helper). -/
inductive Binding where
  | json (v : Value)
  | host

/-- Identifiers in scope at the end of the `charge.success` branch of the webhook
handler: its parameters and locals, then the bindings of the module. -/
def webhookScope (hookEvent data transactionStatus transactionRef : Value) :
    List (String × Binding) :=
  [("req", .host), ("res", .host), ("hookEvent", .json hookEvent), ("data", .json data),
   ("transactionStatus", .json transactionStatus), ("transactionRef", .json transactionRef),
   ("functions", .host), ("express", .host), ("cors", .host), ("bodyParser", .host),
   ("axios", .host), ("admin", .host), ("serviceAccount", .host), ("app", .host),
   ("TardiEatsApi", .host), ("headers", .host),
   ("transactionUrl", .json (.str "https://api.paystack.co/transaction")),
   ("chargeUrl", .json (.str "https://api.paystack.co/charge")),
   ("processCheckout", .host), ("updateOrder", .host),
   ("exports", .host), ("require", .host), ("module", .host),
   ("__filename", .host), ("__dirname", .host)]

/-- Reading identifier `name`: a `ReferenceError` when nothing in scope binds it. -/
def lookupVar (scope : List (String × Binding)) (name : String) : Except Thrown Binding :=
  match scope.find? (fun p => decide (p.1 = name)) with
  | some p => .ok p.2
  | none => .error (.referenceError name)

/-- Property read on what an identifier is bound to. -/
def readProp (b : Binding) (k : String) : Except Thrown Value :=
  match b with
  | .json v => getProp v k
  | .host => .ok .undefined

/-- One call `updateOrder(reference, {transactionStatus, orderStatus})`. -/
structure UpdateCall where
  reference : Value
  transactionStatus : Value
  orderStatus : Value

/-- A run of the webhook handler: the `updateOrder` calls it made, the store once
they have settled, and its reply. -/
structure WebhookRun where
  calls : List UpdateCall
  store : Store
  reply : Except Thrown Response

/-- The arguments of the `updateOrder` call for gateway status `transactionStatus`. -/
def statusUpdate (transactionRef transactionStatus : Value) : UpdateCall :=
  if strictEqStr transactionStatus "success" then
    ⟨transactionRef, .str "paid", .str "success"⟩
  else
    ⟨transactionRef, transactionStatus, transactionStatus⟩

/-- The `charge.success` branch of the webhook handler. -/
def webhookChargeSuccess (fs : Firestore) (commitError : Option Value) (hookEvent : Value)
    (s : Store) : WebhookRun :=
  match (do
      let data ← getProp hookEvent "data"
      let transactionStatus ← getProp data "status"
      let transactionRef ← getProp data "reference"
      pure (data, transactionStatus, transactionRef)) with
  | .error e => ⟨[], s, .error e⟩
  | .ok (data, transactionStatus, transactionRef) =>
    let call := statusUpdate transactionRef transactionStatus
    let updated := updateOrder fs commitError s call.reference call.transactionStatus
      call.orderStatus
    ⟨[call], settle s updated,
      do
        let response ← lookupVar
          (webhookScope hookEvent data transactionStatus transactionRef) "response"
        let body ← readProp response "data"
        pure ⟨.num 200, body⟩⟩

/-- The `POST /webhook` handler on request body `hookEvent`. -/
def webhookHandler (fs : Firestore) (commitError : Option Value) (hookEvent : Value)
    (s : Store) : WebhookRun :=
  if truthy hookEvent then
    match getProp hookEvent "event" with
    | .error e => ⟨[], s, .error e⟩
    | .ok event =>
      if strictEqStr event "charge.success" then
        webhookChargeSuccess fs commitError hookEvent s
      else ⟨[], s, .ok ⟨.num 200, .str "OK"⟩⟩
  else ⟨[], s, .ok ⟨.num 200, .str "OK"⟩⟩

/-! Section: Sample data -/

/-- A Firestore client that accepts a non-empty string as document id and any
object as data. -/
def sampleFirestore : Firestore where
  docPath := fun v =>
    match v with
    | .str s => if s = "" then none else some s
    | _ => none
  validSet := fun v =>
    match v with
    | .obj _ => true
    | _ => false
  validUpdate := fun v =>
    match v with
    | .obj _ => true
    | _ => false

/-- Division of two finite numbers as an exact quotient, `NaN` otherwise; used to
run the handlers on sample data. -/
def sampleDiv (a b : Value) : Value :=
  match a, b with
  | .num x, .num y => if y = 0 then .nan else .num (x / y)
  | _, _ => .nan

/-- The gateway result of the scenario of the specification. -/
def sampleResult : Value :=
  .obj [("reference", .str "T1"), ("amount", .num 5000),
    ("transaction_date", .str "2024-01-01"), ("status", .str "success"),
    ("channel", .str "card"), ("message", .str "Approved"), ("fees", .num 5000),
    ("gateway_response", .str "Approved"), ("metadata", .obj [("user_id", .str "U1")])]

/-- An order draft that carries its own `id`, `status` and `user_id`. -/
def sampleDraft : Value :=
  .obj [("id", .str "mine"), ("items", .arr [.str "rice"]), ("status", .str "done"),
    ("user_id", .str "U9"), ("total", .num 50)]

/-- The axios response wrapping `sampleResult`. -/
def sampleResponse : Value :=
  .obj [("status", .num 200), ("data", .obj [("status", .bool true), ("data", sampleResult)])]

/-- The checkout request body. -/
def sampleBody : Value :=
  .obj [("order", sampleDraft), ("charge", .obj [("email", .str "a@b.c"), ("amount", .num 5000)])]

/-- A `charge.success` webhook event whose data reports a failed charge. -/
def sampleFailedHook : Value :=
  .obj [("event", .str "charge.success"),
    ("data", .obj [("status", .str "failed"), ("reference", .str "T1")])]

/-- A webhook event reporting a successful charge. -/
def sampleHook : Value :=
  .obj [("event", .str "charge.success"),
    ("data", .obj [("status", .str "success"), ("reference", .str "T1")])]

/-! Section: derived forms and reachability -/

/-- The value a property read yields on a value that is neither `undefined` nor `null`. -/
def propOf (v : Value) (k : String) : Value :=
  match getField (ownEnumerable v) k with
  | some x => x
  | none => .undefined

/-- The transaction object built from a gateway result, as a closed expression. -/
def transactionOf (jsDiv : Value → Value → Value) (result metadata : Value) : Value :=
  .obj (defineAll [] [("id", propOf result "reference"),
      ("amount", propOf result "amount"),
      ("transaction_date", propOf result "transaction_date"),
      ("status", propOf result "status"), ("reference", propOf result "reference"),
      ("channel", propOf result "channel"), ("message", propOf result "message"),
      ("fees", jsDiv (propOf result "fees") (.num 100)),
      ("gateway_response", propOf result "gateway_response"),
      ("user_id", propOf metadata "user_id"), ("order_id", propOf result "reference")])

/-- The order object built from a draft and a gateway result, as a closed expression. -/
def orderOf (now draft result metadata : Value) : Value :=
  .obj (defineAll (spread [] draft)
      [("id", propOf result "reference"), ("transaction_ref", propOf result "reference"),
       ("status", .str "pending"), ("user_id", propOf metadata "user_id"),
       ("order_date", propOf result "transaction_date"), ("date", now)])

/-- The transaction and the order carry the same `id`. -/
def SharedId (transaction order : Value) : Prop :=
  getProp transaction "id" = getProp order "id"

/-- Store states reachable from the empty store by `processCheckout` and `updateOrder`
calls, each settling with any commit outcome; `allowed` says which
(transaction, order) pairs `processCheckout` is called on. -/
inductive Reachable (fs : Firestore) (allowed : Value → Value → Prop) : Store → Prop where
  | empty : Reachable fs allowed Store.empty
  | checkout (s : Store) (commitError : Option Value) (transaction order : Value) :
      Reachable fs allowed s → allowed transaction order →
      Reachable fs allowed (settle s (processCheckout fs commitError s transaction order))
  | update (s : Store) (commitError : Option Value) (reference ts os : Value) :
      Reachable fs allowed s →
      Reachable fs allowed (settle s (updateOrder fs commitError s reference ts os))


/-- A store reached by one accepted `processCheckout` call on a transaction and an
order that both carry the id "T1". -/
def sampleStore : Store :=
  settle Store.empty (processCheckout sampleFirestore none Store.empty
    (.obj [("id", .str "T1"), ("status", .str "success")])
    (.obj [("id", .str "T1"), ("status", .str "pending")]))

/-! Section: binary64 division -/

/-- The integer nearest to `q`, the even one on a tie. -/
def roundHalfEven (q : ℚ) : ℤ :=
  if q - ⌊q⌋ < 1 / 2 then ⌊q⌋
  else if 1 / 2 < q - ⌊q⌋ then ⌊q⌋ + 1
  else if ⌊q⌋ % 2 = 0 then ⌊q⌋ else ⌊q⌋ + 1

/-- The spacing of binary64 numbers around `q`: two to the power `⌊log₂ |q|⌋ - 52`
(53 significant bits). -/
def ulp (q : ℚ) : ℚ := (2 : ℚ) ^ (Int.log 2 |q| - 52)

/-- Rounding of a rational to binary64: the nearest multiple of `ulp q`, ties to even.
The exponent range is not bounded. -/
def roundBinary64 (q : ℚ) : ℚ := roundHalfEven (q / ulp q) * ulp q

/-- Rationals with a binary64 representation, exponent range aside: an integer of
magnitude below `2 ^ 53` times a power of two. -/
def Binary64 (q : ℚ) : Prop :=
  ∃ m k : ℤ, |m| < 2 ^ 53 ∧ q = m * (2 : ℚ) ^ k

/-- Rationals whose denominator is a power of two; every binary64 number is one. -/
def Dyadic (q : ℚ) : Prop :=
  ∃ (m : ℤ) (k : ℕ), q * 2 ^ k = m

/-- The JavaScript `/` operator on two finite numbers with a divisor other than zero:
the quotient rounded to binary64.  Other operands yield `NaN` here (JavaScript
converts them to numbers first and divides by zero to an infinity); the handler
divides by the literal 100 only. -/
def jsDivide (a b : Value) : Value :=
  match a, b with
  | .num x, .num y => if y = 0 then .nan else .num (roundBinary64 (x / y))
  | _, _ => .nan


/-- A gateway result whose fees, 4999 minor units, have no exact binary64 quotient
by 100. -/
def sampleFeesResult : Value :=
  .obj [("reference", .str "T2"), ("amount", .num 5000),
    ("transaction_date", .str "2024-01-01"), ("status", .str "success"),
    ("channel", .str "card"), ("message", .str "Approved"), ("fees", .num 4999),
    ("gateway_response", .str "Approved"), ("metadata", .obj [("user_id", .str "U1")])]

/-! Section: lemmas on objects -/

theorem getField_cons (a : String) (b : Value) (rest : List (String × Value)) (j : String) :
    getField ((a, b) :: rest) j =
      match getField rest j with
      | some w => some w
      | none => if a = j then some b else none := rfl

theorem hasField_cons (a : String) (b : Value) (rest : List (String × Value)) (k : String) :
    hasField ((a, b) :: rest) k = (decide (a = k) || hasField rest k) := rfl

theorem getField_map_ne (fs : List (String × Value)) (k : String) (v : Value) (j : String)
    (hj : j ≠ k) :
    getField (fs.map (fun p => (p.1, if p.1 = k then v else p.2))) j = getField fs j := by
  induction fs with
  | nil => rfl
  | cons p rest ih =>
    obtain ⟨a, b⟩ := p
    rw [List.map_cons, getField_cons, getField_cons, ih]
    by_cases ha : a = k
    · subst ha
      have : ¬ a = j := fun h => hj h.symm
      simp [this]
    · simp [ha]

theorem getField_map_none (fs : List (String × Value)) (k : String) (v : Value)
    (h : hasField fs k = false) :
    getField (fs.map (fun p => (p.1, if p.1 = k then v else p.2))) k = none := by
  induction fs with
  | nil => rfl
  | cons p rest ih =>
    obtain ⟨a, b⟩ := p
    rw [hasField_cons, Bool.or_eq_false_iff, decide_eq_false_iff_not] at h
    rw [List.map_cons, getField_cons, ih h.2]
    simp [h.1]

theorem getField_map_same (fs : List (String × Value)) (k : String) (v : Value)
    (h : hasField fs k = true) :
    getField (fs.map (fun p => (p.1, if p.1 = k then v else p.2))) k = some v := by
  induction fs with
  | nil => simp [hasField] at h
  | cons p rest ih =>
    obtain ⟨a, b⟩ := p
    rw [List.map_cons, getField_cons]
    cases hr : hasField rest k with
    | true => rw [ih hr]
    | false =>
      rw [hasField_cons, hr, Bool.or_false, decide_eq_true_eq] at h
      rw [getField_map_none rest k v hr]
      simp [h]

theorem getField_append_single (fs : List (String × Value)) (k : String) (v : Value)
    (j : String) :
    getField (fs ++ [(k, v)]) j = if j = k then some v else getField fs j := by
  induction fs with
  | nil =>
    by_cases h : j = k
    · subst h; simp [getField]
    · have : ¬ k = j := fun e => h e.symm
      simp [getField, h, this]
  | cons p rest ih =>
    obtain ⟨a, b⟩ := p
    rw [List.cons_append, getField_cons, getField_cons, ih]
    by_cases h : j = k
    · simp [h]
    · simp [h]

theorem getField_setField (fs : List (String × Value)) (k : String) (v : Value) (j : String) :
    getField (setField fs k v) j = if j = k then some v else getField fs j := by
  unfold setField
  by_cases h : hasField fs k = true
  · rw [if_pos h]
    by_cases hj : j = k
    · subst hj; simp [getField_map_same fs j v h]
    · simp [hj, getField_map_ne fs k v j hj]
  · rw [if_neg h]
    exact getField_append_single fs k v j

theorem getField_foldl_setField (ms t : List (String × Value)) (j : String) :
    getField (ms.foldl (fun acc p => setField acc p.1 p.2) t) j =
      match getField ms j with
      | some w => some w
      | none => getField t j := by
  induction ms generalizing t with
  | nil => rfl
  | cons p rest ih =>
    obtain ⟨a, b⟩ := p
    rw [List.foldl_cons, ih, getField_cons, getField_setField]
    cases getField rest j with
    | some w => rfl
    | none =>
      by_cases h : a = j
      · simp [h]
      · have : ¬ j = a := fun e => h e.symm
        simp [h, this]

/-! Section: property reads and the records of a checkout -/

theorem getProp_of_not_nullish (v : Value) (k : String) (h : isNullish v = false) :
    getProp v k = .ok (propOf v k) := by
  unfold getProp propOf
  rw [h]
  cases getField (ownEnumerable v) k <;> rfl

theorem not_nullish_of_getProp (v : Value) (k : String) (x : Value)
    (h : getProp v k = .ok x) : isNullish v = false := by
  unfold getProp at h
  cases hv : isNullish v with
  | false => rfl
  | true => rw [hv] at h; simp at h

theorem propOf_of_getProp (v : Value) (k : String) (x : Value)
    (h : getProp v k = .ok x) : propOf v k = x := by
  have hv := not_nullish_of_getProp v k x h
  rw [getProp_of_not_nullish v k hv] at h
  injection h

theorem getProp_obj (fs : List (String × Value)) (k : String) :
    getProp (.obj fs) k = .ok (propOf (.obj fs) k) :=
  getProp_of_not_nullish _ _ rfl

theorem propOf_obj_defineAll (t ms : List (String × Value)) (k : String) :
    propOf (.obj (defineAll t ms)) k =
      match getField ms k with
      | some w => w
      | none => propOf (.obj t) k := by
  unfold propOf defineAll
  simp only [ownEnumerable]
  rw [getField_foldl_setField]
  cases getField ms k <;> rfl

theorem buildTransaction_ok (jsDiv : Value → Value → Value) (result metadata : Value)
    (hm : getProp result "metadata" = .ok metadata) (hn : isNullish metadata = false) :
    buildTransaction jsDiv result = .ok (.obj (defineAll [] [("id", propOf result "reference"),
      ("amount", propOf result "amount"),
      ("transaction_date", propOf result "transaction_date"),
      ("status", propOf result "status"), ("reference", propOf result "reference"),
      ("channel", propOf result "channel"), ("message", propOf result "message"),
      ("fees", jsDiv (propOf result "fees") (.num 100)),
      ("gateway_response", propOf result "gateway_response"),
      ("user_id", propOf metadata "user_id"), ("order_id", propOf result "reference")])) := by
  have hr := not_nullish_of_getProp _ _ _ hm
  unfold buildTransaction
  simp only [getProp_of_not_nullish result _ hr, propOf_of_getProp _ _ _ hm, bind, Except.bind,
    getProp_of_not_nullish metadata _ hn]
  rfl

theorem buildOrder_ok (now draft transaction result metadata : Value)
    (ht : isNullish transaction = false)
    (hm : getProp result "metadata" = .ok metadata) (hn : isNullish metadata = false) :
    buildOrder now draft transaction result = .ok (.obj (defineAll (spread [] draft)
      [("id", propOf transaction "id"), ("transaction_ref", propOf transaction "id"),
       ("status", .str "pending"), ("user_id", propOf metadata "user_id"),
       ("order_date", propOf transaction "transaction_date"), ("date", now)])) := by
  unfold buildOrder
  simp only [getProp_of_not_nullish transaction _ ht, hm, bind, Except.bind,
    getProp_of_not_nullish metadata _ hn]
  rfl

theorem propOf_transactionOf (jsDiv : Value → Value → Value) (result metadata : Value) :
    propOf (transactionOf jsDiv result metadata) "id" = propOf result "reference" ∧
    propOf (transactionOf jsDiv result metadata) "reference" = propOf result "reference" ∧
    propOf (transactionOf jsDiv result metadata) "order_id" = propOf result "reference" ∧
    propOf (transactionOf jsDiv result metadata) "amount" = propOf result "amount" ∧
    propOf (transactionOf jsDiv result metadata) "fees"
      = jsDiv (propOf result "fees") (.num 100) ∧
    propOf (transactionOf jsDiv result metadata) "transaction_date"
      = propOf result "transaction_date" := by
  simp [transactionOf, propOf_obj_defineAll, getField]

theorem checkoutRecords_ok (jsDiv : Value → Value → Value) (now result draft metadata : Value)
    (hm : getProp result "metadata" = .ok metadata) (hn : isNullish metadata = false) :
    checkoutRecords jsDiv now result draft =
      .ok (transactionOf jsDiv result metadata, orderOf now draft result metadata) := by
  unfold checkoutRecords
  have hb := buildTransaction_ok jsDiv result metadata hm hn
  have ho := buildOrder_ok now draft (transactionOf jsDiv result metadata) result metadata rfl
    hm hn
  have h := propOf_transactionOf jsDiv result metadata
  rw [h.1, h.2.2.2.2.2] at ho
  unfold transactionOf at ho ⊢
  rw [hb]
  simp only [bind, Except.bind]
  rw [ho]
  rfl

theorem getField_orderOf (now draft result metadata : Value) (k : String) :
    getField (defineAll (spread [] draft)
      [("id", propOf result "reference"), ("transaction_ref", propOf result "reference"),
       ("status", .str "pending"), ("user_id", propOf metadata "user_id"),
       ("order_date", propOf result "transaction_date"), ("date", now)]) k =
      if k = "date" then some now
      else if k = "order_date" then some (propOf result "transaction_date")
      else if k = "user_id" then some (propOf metadata "user_id")
      else if k = "status" then some (.str "pending")
      else if k = "transaction_ref" then some (propOf result "reference")
      else if k = "id" then some (propOf result "reference")
      else getField (ownEnumerable draft) k := by
  unfold defineAll spread
  simp only [List.foldl_cons, List.foldl_nil, getField_setField, getField_foldl_setField]
  cases getField (ownEnumerable draft) k <;> rfl

/-! Section: outcomes of the store helpers -/

theorem processCheckout_outcome (fs : Firestore) (commitError : Option Value)
    (t o : Value) :
    (∃ e, ∀ s, processCheckout fs commitError s t o = .error e) ∨
    (∃ tid oid k j, getProp t "id" = .ok tid ∧ getProp o "id" = .ok oid ∧
      fs.docPath tid = some k ∧ fs.docPath oid = some j ∧
      fs.validSet t = true ∧ fs.validSet o = true ∧ commitError = none ∧
      ∀ s, processCheckout fs commitError s t o
        = .ok ((s.put .Transactions k t).put .Orders j o)) := by
  unfold processCheckout
  cases h1 : getProp t "id" with
  | error e => exact Or.inl ⟨e, fun s => rfl⟩
  | ok tid =>
    cases h2 : fs.docPath tid with
    | none => exact Or.inl ⟨argumentError, fun s => by simp [bind, Except.bind, Firestore.doc, h2]⟩
    | some k =>
      cases h3 : fs.validSet t with
      | false =>
        exact Or.inl ⟨argumentError, fun s => by
          simp [bind, Except.bind, Firestore.doc, h2, Firestore.batchSet, h3]⟩
      | true =>
        cases h4 : getProp o "id" with
        | error e =>
          exact Or.inl ⟨e, fun s => by
            simp [bind, Except.bind, Firestore.doc, h2, Firestore.batchSet, h3]⟩
        | ok oid =>
          cases h5 : fs.docPath oid with
          | none =>
            exact Or.inl ⟨argumentError, fun s => by
              simp [bind, Except.bind, Firestore.doc, h2, Firestore.batchSet, h3, h5]⟩
          | some j =>
            cases h6 : fs.validSet o with
            | false =>
              exact Or.inl ⟨argumentError, fun s => by
                simp [bind, Except.bind, Firestore.doc, h2, Firestore.batchSet, h3, h5, h6]⟩
            | true =>
              cases commitError with
              | some err =>
                exact Or.inl ⟨.object err, fun s => by
                  simp [bind, Except.bind, Firestore.doc, h2, Firestore.batchSet, h3, h5, h6,
                    commit]⟩
              | none =>
                exact Or.inr ⟨tid, oid, k, j, rfl, rfl, h2, h5, rfl, rfl, rfl, fun s => by
                  simp [bind, Except.bind, Firestore.doc, h2, Firestore.batchSet, h3, h5, h6,
                    commit, applyAll, applyWrite]⟩

theorem processCheckout_ok (fs : Firestore) (s : Store) (t o tid oid : Value) (k j : String)
    (h1 : getProp t "id" = .ok tid) (h2 : fs.docPath tid = some k)
    (h3 : fs.validSet t = true) (h4 : getProp o "id" = .ok oid)
    (h5 : fs.docPath oid = some j) (h6 : fs.validSet o = true) :
    processCheckout fs none s t o = .ok ((s.put .Transactions k t).put .Orders j o) := by
  unfold processCheckout
  simp [bind, Except.bind, Firestore.doc, h1, h2, Firestore.batchSet, h3, h4, h5, h6,
    commit, applyAll, applyWrite]

theorem updateOrder_outcome (fs : Firestore) (commitError : Option Value) (s : Store)
    (reference ts os : Value) :
    (∃ e, updateOrder fs commitError s reference ts os = .error e) ∨
    (∃ k d1 d2 n1 n2, fs.docPath reference = some k ∧ s.transactions k = some d1 ∧
      s.orders k = some d2 ∧
      updateOrder fs commitError s reference ts os
        = .ok ((s.put .Transactions k n1).put .Orders k n2)) := by
  unfold updateOrder
  cases h2 : fs.docPath reference with
  | none => exact Or.inl ⟨argumentError, by simp [bind, Except.bind, Firestore.doc, h2]⟩
  | some k =>
    cases h3 : fs.validUpdate (.obj [("status", ts)]) with
    | false =>
      exact Or.inl ⟨argumentError, by
        simp [bind, Except.bind, Firestore.doc, h2, Firestore.batchUpdate, h3]⟩
    | true =>
      cases h4 : fs.validUpdate (.obj [("status", os)]) with
      | false =>
        exact Or.inl ⟨argumentError, by
          simp [bind, Except.bind, Firestore.doc, h2, Firestore.batchUpdate, h3, h4]⟩
      | true =>
        cases commitError with
        | some err =>
          exact Or.inl ⟨.object err, by
            simp [bind, Except.bind, Firestore.doc, h2, Firestore.batchUpdate, h3, h4, commit]⟩
        | none =>
          cases h5 : s.transactions k with
          | none =>
            exact Or.inl ⟨notFoundError, by
              simp [bind, Except.bind, Firestore.doc, h2, Firestore.batchUpdate, h3, h4, commit,
                applyAll, applyWrite, Store.get, h5]⟩
          | some d1 =>
            cases h6 : s.orders k with
            | none =>
              exact Or.inl ⟨notFoundError, by
                simp [bind, Except.bind, Firestore.doc, h2, Firestore.batchUpdate, h3, h4, commit,
                  applyAll, applyWrite, Store.get, h5, Store.put, h6]⟩
            | some d2 =>
              exact Or.inr ⟨k, d1, d2, .obj (spread (ownEnumerable d1) (.obj [("status", ts)])),
                .obj (spread (ownEnumerable d2) (.obj [("status", os)])), rfl, h5, h6, by
                simp [bind, Except.bind, Firestore.doc, h2, Firestore.batchUpdate, h3, h4, commit,
                  applyAll, applyWrite, Store.get, h5, Store.put, h6]⟩

theorem updateOrder_missing (fs : Firestore) (commitError : Option Value) (s : Store)
    (reference ts os : Value) (k : String) (hk : fs.docPath reference = some k)
    (hmiss : s.transactions k = none ∨ s.orders k = none) :
    ∃ e, updateOrder fs commitError s reference ts os = .error e := by
  rcases updateOrder_outcome fs commitError s reference ts os with h | h
  · exact h
  · obtain ⟨kb, d1, d2, n1, n2, hkb, h1, h2, _⟩ := h
    rw [hk] at hkb
    injection hkb with hkb
    subst hkb
    rcases hmiss with hm | hm
    · rw [hm] at h1; cases h1
    · rw [hm] at h2; cases h2

/-! Section: the checkout handler -/

theorem checkoutSuccess_ok (result : Value) (h : isNullish result = false) :
    checkoutSuccess result = .ok ⟨.num 200, .obj (defineAll [] [("status", propOf result "status"),
      ("message", propOf result "message"), ("reference", propOf result "reference")])⟩ := by
  unfold checkoutSuccess
  simp only [getProp_of_not_nullish result _ h, bind, Except.bind]
  rfl

theorem checkoutHandler_run (fs : Firestore) (jsDiv : Value → Value → Value) (now : Value)
    (commitError : Option Value) (body response responseData result draft metadata : Value)
    (s : Store)
    (hbody : getProp body "order" = .ok draft)
    (hresp : getProp response "data" = .ok responseData)
    (hres : getProp responseData "data" = .ok result)
    (hm : getProp result "metadata" = .ok metadata) (hn : isNullish metadata = false) :
    checkoutHandler fs jsDiv now commitError (.ok response) body s =
      ⟨settle s (processCheckout fs commitError s (transactionOf jsDiv result metadata)
          (orderOf now draft result metadata)),
        .ok ⟨.num 200, .obj (defineAll [] [("status", propOf result "status"),
          ("message", propOf result "message"), ("reference", propOf result "reference")])⟩⟩ := by
  have hb := not_nullish_of_getProp _ _ _ hbody
  have hr := not_nullish_of_getProp _ _ _ hm
  unfold checkoutHandler checkoutThen
  simp only [getProp_of_not_nullish body "charge" hb, hbody, hresp, hres,
    checkoutRecords_ok jsDiv now result draft metadata hm hn, bind, Except.bind, pure,
    Except.pure, asyncCall, checkoutSuccess_ok result hr, tryCatch]

/-- C1: for a checkout whose charge call succeeds with result `result` (its `metadata`
readable), whatever the order draft holds, the handler builds a transaction and an
order with transaction.id = order.id = order.transaction_ref = transaction.order_id =
transaction.reference = result.reference, and `processCheckout`, once the store
client accepts the id and both documents and the commit goes through, leaves exactly
these two documents under the key of that reference in `Transactions` and `Orders`;
that store is the one the handler run ends with. -/
theorem checkout_keys_aligned (fs : Firestore) (jsDiv : Value → Value → Value)
    (now body response responseData result draft metadata : Value) (s : Store)
    (hbody : getProp body "order" = .ok draft)
    (hresp : getProp response "data" = .ok responseData)
    (hres : getProp responseData "data" = .ok result)
    (hm : getProp result "metadata" = .ok metadata) (hn : isNullish metadata = false) :
    ∃ reference transaction order,
      getProp result "reference" = .ok reference ∧
      checkoutRecords jsDiv now result draft = .ok (transaction, order) ∧
      getProp transaction "id" = .ok reference ∧
      getProp order "id" = .ok reference ∧
      getProp order "transaction_ref" = .ok reference ∧
      getProp transaction "order_id" = .ok reference ∧
      getProp transaction "reference" = .ok reference ∧
      ∀ key, fs.docPath reference = some key → fs.validSet transaction = true →
        fs.validSet order = true →
        ∃ sb, processCheckout fs none s transaction order = .ok sb ∧
          (checkoutHandler fs jsDiv now none (.ok response) body s).store = sb ∧
          sb.transactions key = some transaction ∧ sb.orders key = some order := by
  have hr := not_nullish_of_getProp _ _ _ hm
  have ht := propOf_transactionOf jsDiv result metadata
  have hoid : getProp (orderOf now draft result metadata) "id"
      = .ok (propOf result "reference") := by
    rw [orderOf, getProp_obj, propOf, ownEnumerable, getField_orderOf]; rfl
  have hotr : getProp (orderOf now draft result metadata) "transaction_ref"
      = .ok (propOf result "reference") := by
    rw [orderOf, getProp_obj, propOf, ownEnumerable, getField_orderOf]; rfl
  have htid : getProp (transactionOf jsDiv result metadata) "id"
      = .ok (propOf result "reference") := by
    rw [transactionOf, getProp_obj, ← transactionOf, ht.1]
  refine ⟨propOf result "reference", transactionOf jsDiv result metadata,
    orderOf now draft result metadata, getProp_of_not_nullish _ _ hr,
    checkoutRecords_ok jsDiv now result draft metadata hm hn, htid, hoid, hotr, ?_, ?_, ?_⟩
  · rw [transactionOf, getProp_obj, ← transactionOf, ht.2.2.1]
  · rw [transactionOf, getProp_obj, ← transactionOf, ht.2.1]
  · intro key hkey hvt hvo
    have hp := processCheckout_ok fs s _ _ _ _ key key htid hkey hvt hoid hkey hvo
    refine ⟨_, hp, ?_, ?_, ?_⟩
    · rw [checkoutHandler_run fs jsDiv now none body response responseData result draft
        metadata s hbody hresp hres hm hn, hp]
      rfl
    · simp [Store.put]
    · simp [Store.put]

/-- C6: for a checkout whose charge call succeeds (the `metadata` of the result
readable), the order the handler builds has status "pending", whatever the status of
the gateway result and whatever the order draft holds. -/
theorem order_status_pending (jsDiv : Value → Value → Value)
    (now result draft metadata : Value)
    (hm : getProp result "metadata" = .ok metadata) (hn : isNullish metadata = false) :
    ∃ transaction order,
      checkoutRecords jsDiv now result draft = .ok (transaction, order) ∧
      getProp order "status" = .ok (.str "pending") := by
  refine ⟨_, _, checkoutRecords_ok jsDiv now result draft metadata hm hn, ?_⟩
  rw [orderOf, getProp_obj, propOf, ownEnumerable, getField_orderOf]
  rfl

/-- C8: for a checkout whose charge call succeeds (the `metadata` of the result
readable), the `user_id` of the order is the `user_id` of the gateway metadata,
whatever the draft holds, and every key other than id, transaction_ref, status,
user_id, order_date and date has in the order exactly the value it has in the draft
(and is absent when the draft does not have it). -/
theorem order_user_and_draft_fields (jsDiv : Value → Value → Value)
    (now result draft metadata : Value)
    (hm : getProp result "metadata" = .ok metadata) (hn : isNullish metadata = false) :
    ∃ transaction fields user,
      getProp metadata "user_id" = .ok user ∧
      checkoutRecords jsDiv now result draft = .ok (transaction, .obj fields) ∧
      getField fields "user_id" = some user ∧
      ∀ k, k ∉ ["id", "transaction_ref", "status", "user_id", "order_date", "date"] →
        getField fields k = getField (ownEnumerable draft) k := by
  refine ⟨_, _, propOf metadata "user_id", getProp_of_not_nullish _ _ hn,
    checkoutRecords_ok jsDiv now result draft metadata hm hn, ?_, ?_⟩
  · rw [getField_orderOf]; rfl
  · intro k hk
    simp only [List.mem_cons, List.mem_singleton, List.not_mem_nil, or_false, not_or] at hk
    rw [getField_orderOf]
    simp [hk]

/-! Section: the webhook handler -/

theorem truthy_of_getProp_str (v : Value) (k x : String)
    (h : getProp v k = .ok (.str x)) : truthy v = true := by
  cases v with
  | undefined => simp [getProp, isNullish] at h
  | null => simp [getProp, isNullish] at h
  | bool b => simp [getProp, isNullish, ownEnumerable, getField] at h
  | num q => simp [getProp, isNullish, ownEnumerable, getField] at h
  | nan => simp [getProp, isNullish, ownEnumerable, getField] at h
  | str s =>
    by_cases hs : s = ""
    · subst hs
      simp [getProp, isNullish, ownEnumerable, getField, indexEntries] at h
    · simp [truthy, hs]
  | arr xs => rfl
  | obj fs => rfl

theorem strictEqStr_iff (v : Value) (lit : String) :
    strictEqStr v lit = true ↔ v = .str lit := by
  cases v <;> simp [strictEqStr]

theorem webhookChargeSuccess_run (fs : Firestore) (commitError : Option Value)
    (hookEvent data status reference : Value) (s : Store)
    (hd : getProp hookEvent "data" = .ok data)
    (hs : getProp data "status" = .ok status)
    (hr : getProp data "reference" = .ok reference) :
    webhookChargeSuccess fs commitError hookEvent s =
      ⟨[statusUpdate reference status],
        settle s (updateOrder fs commitError s (statusUpdate reference status).reference
          (statusUpdate reference status).transactionStatus
          (statusUpdate reference status).orderStatus),
        .error (.referenceError "response")⟩ := by
  unfold webhookChargeSuccess
  simp only [hd, hs, hr, bind, Except.bind, pure, Except.pure]
  simp [lookupVar, webhookScope]

/-- C4: for a webhook event with event = "charge.success" whose `data` has status
`status` and reference `reference`, the handler calls `updateOrder` exactly once, on
`reference`, with (transactionStatus, orderStatus) = ("paid", "success") when the
status is the string "success" and (status, status) otherwise, and the store
afterwards is the one this call settles with. -/
theorem webhook_charge_success_update (fs : Firestore) (commitError : Option Value)
    (hookEvent data status reference : Value) (s : Store)
    (he : getProp hookEvent "event" = .ok (.str "charge.success"))
    (hd : getProp hookEvent "data" = .ok data)
    (hs : getProp data "status" = .ok status)
    (hr : getProp data "reference" = .ok reference) :
    (status = .str "success" →
      (webhookHandler fs commitError hookEvent s).calls
          = [⟨reference, .str "paid", .str "success"⟩] ∧
      (webhookHandler fs commitError hookEvent s).store
          = settle s (updateOrder fs commitError s reference (.str "paid") (.str "success"))) ∧
    (status ≠ .str "success" →
      (webhookHandler fs commitError hookEvent s).calls = [⟨reference, status, status⟩] ∧
      (webhookHandler fs commitError hookEvent s).store
          = settle s (updateOrder fs commitError s reference status status)) := by
  have ht := truthy_of_getProp_str _ _ _ he
  have hrun : webhookHandler fs commitError hookEvent s
      = webhookChargeSuccess fs commitError hookEvent s := by
    unfold webhookHandler
    simp [ht, he, strictEqStr]
  rw [hrun, webhookChargeSuccess_run fs commitError hookEvent data status reference s hd hs hr]
  constructor
  · intro h
    subst h
    simp [statusUpdate, strictEqStr]
  · intro h
    have hne : strictEqStr status "success" = false := by
      cases hb : strictEqStr status "success" with
      | false => rfl
      | true => exact absurd ((strictEqStr_iff _ _).1 hb) h
    simp [statusUpdate, hne]

/-- C5: for a webhook request whose body is absent, or whose `event` is anything but
the exact string "charge.success" (both make the read `hookEvent.event` yield
something else than that string), the handler makes no `updateOrder` call, leaves
the store as it was and responds with status 200. -/
theorem webhook_other_event_noop (fs : Firestore) (commitError : Option Value)
    (hookEvent : Value) (s : Store)
    (h : getProp hookEvent "event" ≠ .ok (.str "charge.success")) :
    (webhookHandler fs commitError hookEvent s).calls = [] ∧
    (webhookHandler fs commitError hookEvent s).store = s ∧
    (webhookHandler fs commitError hookEvent s).reply = .ok ⟨.num 200, .str "OK"⟩ := by
  unfold webhookHandler
  cases ht : truthy hookEvent with
  | false => simp
  | true =>
    have hn : isNullish hookEvent = false := by
      cases hookEvent <;> simp [truthy, isNullish] at ht ⊢
    rw [getProp_of_not_nullish _ _ hn] at h ⊢
    have hne : strictEqStr (propOf hookEvent "event") "charge.success" = false := by
      cases hb : strictEqStr (propOf hookEvent "event") "charge.success" with
      | false => rfl
      | true =>
        exfalso; apply h; rw [(strictEqStr_iff _ _).1 hb]
    simp [hne]

/-! Section: the store under checkout and reconciliation -/

theorem sameKeys_put_both (s : Store) (k : String) (t o : Value) (h : SameKeys s) :
    SameKeys ((s.put .Transactions k t).put .Orders k o) := by
  intro x
  by_cases hx : x = k
  · simp [Store.put, hx]
  · simpa [Store.put, hx] using h x

theorem put_both_idem (s : Store) (k j : String) (t o : Value) :
    (((s.put .Transactions k t).put .Orders j o).put .Transactions k t).put .Orders j o
      = (s.put .Transactions k t).put .Orders j o := by
  cases s with
  | mk tr ord =>
    simp only [Store.put, Store.mk.injEq]
    constructor
    · funext x; by_cases hx : x = k <;> simp [hx]
    · funext x; by_cases hx : x = j <;> simp [hx]

/-- C2: a checkout whose gateway charge succeeds while the batch commit of
`processCheckout` rejects.  The promise of `processCheckout` rejects and nothing is
stored, yet the handler replies 200 with the success body: the call is not awaited,
so the rejection never reaches the `catch` clause that would reply 500. -/
theorem checkout_commit_rejected_replies_200 :
    ∃ transaction order,
      checkoutRecords sampleDiv (.num 1700000000000) sampleResult sampleDraft
        = .ok (transaction, order) ∧
      processCheckout sampleFirestore (some (.obj [("code", .num 14)])) Store.empty
        transaction order = .error (.object (.obj [("code", .num 14)])) ∧
      (checkoutHandler sampleFirestore sampleDiv (.num 1700000000000)
        (some (.obj [("code", .num 14)])) (.ok sampleResponse) sampleBody Store.empty).reply
        = .ok ⟨.num 200, .obj [("status", .str "success"), ("message", .str "Approved"),
            ("reference", .str "T1")]⟩ := by
  have hm : getProp sampleResult "metadata" = .ok (.obj [("user_id", .str "U1")]) := by
    simp [getProp, sampleResult, isNullish, ownEnumerable, getField]
  refine ⟨_, _, checkoutRecords_ok sampleDiv _ sampleResult sampleDraft _ hm rfl, ?_, ?_⟩
  · simp [processCheckout, transactionOf, orderOf, getProp, isNullish, ownEnumerable,
      defineAll, spread, setField, hasField, getField, propOf, sampleResult, sampleDraft,
      sampleFirestore, Firestore.doc, Firestore.batchSet, bind, Except.bind, commit]
  · rw [checkoutHandler_run sampleFirestore sampleDiv _ _ sampleBody sampleResponse
      (.obj [("status", .bool true), ("data", sampleResult)]) sampleResult sampleDraft
      (.obj [("user_id", .str "U1")]) Store.empty
      (by simp [getProp, sampleBody, isNullish, ownEnumerable, getField])
      (by simp [getProp, sampleResponse, isNullish, ownEnumerable, getField])
      (by simp [getProp, isNullish, ownEnumerable, getField])
      hm rfl]
    simp [defineAll, setField, hasField, propOf, sampleResult, ownEnumerable, getField]

/-- C3: a webhook event with event = "charge.success".  After the `updateOrder` call
the handler reads the identifier `response`, which nothing in scope binds, so it
raises a `ReferenceError` instead of sending the 200 response; with `data` absent it
raises a `TypeError` even before. -/
theorem webhook_charge_success_raises :
    (webhookHandler sampleFirestore none sampleHook Store.empty).reply
      = .error (.referenceError "response") ∧
    (webhookHandler sampleFirestore none (.obj [("event", .str "charge.success")])
      Store.empty).reply = .error .typeError := by
  constructor
  · simp [webhookHandler, webhookChargeSuccess, sampleHook, truthy, getProp, isNullish,
      ownEnumerable, getField, strictEqStr, bind, Except.bind, pure, Except.pure, lookupVar,
      webhookScope]
  · simp [webhookHandler, webhookChargeSuccess, truthy, getProp, isNullish,
      ownEnumerable, getField, strictEqStr, bind, Except.bind]

theorem sameKeys_of_reachable (fs : Firestore) (s : Store) (h : Reachable fs SharedId s) :
    SameKeys s := by
  induction h with
  | empty => intro k; rfl
  | checkout s ce t o _ hshared ih =>
    rcases processCheckout_outcome fs ce t o with ⟨e, he⟩ | ⟨tid, oid, k, j, h1, h2, h3, h4, _, _, _, hok⟩
    · rw [he s]; exact ih
    · rw [hok s]
      have hid : tid = oid := by
        unfold SharedId at hshared
        rw [h1, h2] at hshared
        injection hshared
      subst hid
      rw [h3] at h4
      injection h4 with h4
      subst h4
      exact sameKeys_put_both s k t o ih
  | update s ce reference ts os _ ih =>
    rcases updateOrder_outcome fs ce s reference ts os with ⟨e, he⟩ | ⟨k, d1, d2, n1, n2, _, _, _, hok⟩
    · rw [he]; exact ih
    · rw [hok]
      exact sameKeys_put_both s k n1 n2 ih

/-- C9, the claim as stated fails: `processCheckout` keys each document by its own
`id`, so a call on a transaction with id "A" and an order with id "B" reaches a
store whose `Transactions` and `Orders` key sets differ. -/
theorem unrestricted_checkout_breaks_keys :
    ¬ ∀ s, Reachable sampleFirestore (fun _ _ => True) s → SameKeys s := by
  intro h
  have hs := h _ (Reachable.checkout Store.empty none (.obj [("id", .str "A")])
    (.obj [("id", .str "B")]) Reachable.empty trivial)
  have hA := hs "A"
  simp [processCheckout, getProp, isNullish, ownEnumerable, getField, sampleFirestore,
    Firestore.doc, Firestore.batchSet, bind, Except.bind, commit, applyAll, applyWrite,
    settle, Store.put, Store.empty] at hA

/-- C9, amended: every store reachable from the empty store by `updateOrder` calls and
by `processCheckout` calls on a transaction and an order that carry the same `id`
has the same key set in `Transactions` and in `Orders`; such a `processCheckout`
call that succeeds writes both documents under one key; and `updateOrder` on a
reference one of whose two documents is missing rejects and leaves the store
unchanged. -/
theorem store_keys_aligned (fs : Firestore) (s : Store) (h : Reachable fs SharedId s) :
    SameKeys s ∧
    (∀ commitError transaction order after, SharedId transaction order →
      processCheckout fs commitError s transaction order = .ok after →
      ∃ key, after = (s.put .Transactions key transaction).put .Orders key order) ∧
    (∀ commitError reference ts os key, fs.docPath reference = some key →
      (s.transactions key = none ∨ s.orders key = none) →
      (∃ e, updateOrder fs commitError s reference ts os = .error e) ∧
      settle s (updateOrder fs commitError s reference ts os) = s) := by
  refine ⟨sameKeys_of_reachable fs s h, ?_, ?_⟩
  · intro ce t o after hshared hafter
    rcases processCheckout_outcome fs ce t o with ⟨e, he⟩ | ⟨tid, oid, k, j, h1, h2, h3, h4, _, _, _, hok⟩
    · rw [he s] at hafter; cases hafter
    · have hid : tid = oid := by
        unfold SharedId at hshared
        rw [h1, h2] at hshared
        injection hshared
      subst hid
      rw [h3] at h4
      injection h4 with h4
      subst h4
      rw [hok s] at hafter
      injection hafter with hafter
      exact ⟨k, hafter.symm⟩
  · intro ce reference ts os key hkey hmiss
    obtain ⟨e, he⟩ := updateOrder_missing fs ce s reference ts os key hkey hmiss
    exact ⟨⟨e, he⟩, by rw [he]; rfl⟩

/-- C10: `processCheckout` is idempotent on the store.  For every store, transaction
and order, running it twice in succession (both commits meeting the same backend
outcome) leaves the store exactly as running it once does; the same holds when the
first run met any outcome and the run that follows is accepted. -/
theorem processCheckout_idempotent (fs : Firestore) (s : Store) (transaction order : Value) :
    (∀ commitError,
      settle (settle s (processCheckout fs commitError s transaction order))
        (processCheckout fs commitError
          (settle s (processCheckout fs commitError s transaction order)) transaction order)
        = settle s (processCheckout fs commitError s transaction order)) ∧
    (∀ commitError,
      settle (settle s (processCheckout fs commitError s transaction order))
        (processCheckout fs none
          (settle s (processCheckout fs commitError s transaction order)) transaction order)
        = settle s (processCheckout fs none s transaction order)) := by
  constructor
  · intro ce
    rcases processCheckout_outcome fs ce transaction order with
      ⟨e, he⟩ | ⟨tid, oid, k, j, _, _, _, _, _, _, _, hok⟩
    · simp only [he, settle]
    · simp only [hok, settle, put_both_idem]
  · intro ce
    rcases processCheckout_outcome fs none transaction order with
      ⟨e, he⟩ | ⟨tid, oid, k, j, h1, h2, h3, h4, _, _, _, hok⟩
    · rcases processCheckout_outcome fs ce transaction order with
        ⟨eb, heb⟩ | ⟨_, _, _, _, _, _, _, _, _, _, hce, hokb⟩
      · simp only [he, heb, settle]
      · subst hce
        have := he s
        rw [hokb s] at this
        cases this
    · rcases processCheckout_outcome fs ce transaction order with
        ⟨eb, heb⟩ | ⟨tidb, oidb, kb, jb, h1b, h2b, h3b, h4b, _, _, hce, hokb⟩
      · simp only [hok, heb, settle]
      · rw [h1] at h1b; injection h1b with h1b; subst h1b
        rw [h2] at h2b; injection h2b with h2b; subst h2b
        rw [h3] at h3b; injection h3b with h3b; subst h3b
        rw [h4] at h4b; injection h4b with h4b; subst h4b
        simp only [hok, hokb, settle, put_both_idem]

/-! Section: further facts and instances on the sample data -/

/-- The records are built exactly when the `metadata` of the gateway result can be
read from: otherwise the handler raises a `TypeError` before building them. -/
theorem checkoutRecords_built (jsDiv : Value → Value → Value) (now result draft : Value)
    (records : Value × Value)
    (h : checkoutRecords jsDiv now result draft = .ok records) :
    ∃ metadata, getProp result "metadata" = .ok metadata ∧ isNullish metadata = false := by
  cases hr : isNullish result with
  | true =>
    have hg : ∀ k, getProp result k = .error .typeError := by
      intro k; simp [getProp, hr]
    simp [checkoutRecords, buildTransaction, hg, bind, Except.bind] at h
  | false =>
    refine ⟨propOf result "metadata", getProp_of_not_nullish _ _ hr, ?_⟩
    cases hn : isNullish (propOf result "metadata") with
    | false => rfl
    | true =>
      have hg : getProp (propOf result "metadata") "user_id" = .error .typeError := by
        simp [getProp, hn]
      simp [checkoutRecords, buildTransaction, getProp_of_not_nullish result _ hr, hg, bind,
        Except.bind] at h

/-- The transaction carries the amount of the gateway result unchanged and, as fees,
what the `/` operator yields on the fees of the result and 100. -/
theorem transaction_amount_and_fees (jsDiv : Value → Value → Value)
    (now result draft metadata amount fees : Value)
    (hm : getProp result "metadata" = .ok metadata) (hn : isNullish metadata = false)
    (ha : getProp result "amount" = .ok amount) (hf : getProp result "fees" = .ok fees) :
    ∃ transaction order,
      checkoutRecords jsDiv now result draft = .ok (transaction, order) ∧
      getProp transaction "amount" = .ok amount ∧
      getProp transaction "fees" = .ok (jsDiv fees (.num 100)) := by
  have ht := propOf_transactionOf jsDiv result metadata
  refine ⟨_, _, checkoutRecords_ok jsDiv now result draft metadata hm hn, ?_, ?_⟩
  · rw [transactionOf, getProp_obj, ← transactionOf, ht.2.2.2.1, propOf_of_getProp _ _ _ ha]
  · rw [transactionOf, getProp_obj, ← transactionOf, ht.2.2.2.2.1, propOf_of_getProp _ _ _ hf]

/-- The scenario of the specification: the records built from the sample gateway
result and a draft that carries its own `id`, `status` and `user_id`. -/
theorem checkoutRecords_scenario :
    checkoutRecords sampleDiv (.num 17) sampleResult sampleDraft = .ok
      (.obj [("id", .str "T1"), ("amount", .num 5000),
        ("transaction_date", .str "2024-01-01"), ("status", .str "success"),
        ("reference", .str "T1"), ("channel", .str "card"), ("message", .str "Approved"),
        ("fees", .num 50), ("gateway_response", .str "Approved"), ("user_id", .str "U1"),
        ("order_id", .str "T1")],
       .obj [("id", .str "T1"), ("items", .arr [.str "rice"]), ("status", .str "pending"),
        ("user_id", .str "U1"), ("total", .num 50), ("transaction_ref", .str "T1"),
        ("order_date", .str "2024-01-01"), ("date", .num 17)]) := by
  simp [checkoutRecords, buildTransaction, buildOrder, getProp, sampleResult, sampleDraft,
    isNullish, ownEnumerable, getField, bind, Except.bind, pure, Except.pure, defineAll,
    spread, setField, hasField, sampleDiv]
  norm_num

theorem sample_body_order : getProp sampleBody "order" = .ok sampleDraft := by
  simp [getProp, sampleBody, isNullish, ownEnumerable, getField]

theorem sample_response_data :
    getProp sampleResponse "data" = .ok (.obj [("status", .bool true), ("data", sampleResult)]) := by
  simp [getProp, sampleResponse, isNullish, ownEnumerable, getField]

theorem sample_response_result :
    getProp (.obj [("status", .bool true), ("data", sampleResult)]) "data" = .ok sampleResult := by
  simp [getProp, isNullish, ownEnumerable, getField]

theorem sample_result_metadata :
    getProp sampleResult "metadata" = .ok (.obj [("user_id", .str "U1")]) := by
  simp [getProp, sampleResult, isNullish, ownEnumerable, getField]

/-- C1 at the sample request: the hypotheses hold there and the theorem applies. -/
theorem checkout_keys_aligned_witness :
    getProp sampleBody "order" = .ok sampleDraft ∧
    getProp sampleResponse "data" = .ok (.obj [("status", .bool true), ("data", sampleResult)]) ∧
    getProp (.obj [("status", .bool true), ("data", sampleResult)]) "data" = .ok sampleResult ∧
    getProp sampleResult "metadata" = .ok (.obj [("user_id", .str "U1")]) ∧
    isNullish (.obj [("user_id", .str "U1")]) = false ∧
    ∃ reference transaction order,
      getProp sampleResult "reference" = .ok reference ∧
      checkoutRecords sampleDiv (.num 17) sampleResult sampleDraft = .ok (transaction, order) ∧
      getProp transaction "id" = .ok reference ∧
      getProp order "id" = .ok reference ∧
      getProp order "transaction_ref" = .ok reference ∧
      getProp transaction "order_id" = .ok reference ∧
      getProp transaction "reference" = .ok reference ∧
      ∀ key, sampleFirestore.docPath reference = some key →
        sampleFirestore.validSet transaction = true →
        sampleFirestore.validSet order = true →
        ∃ after, processCheckout sampleFirestore none Store.empty transaction order = .ok after ∧
          (checkoutHandler sampleFirestore sampleDiv (.num 17) none (.ok sampleResponse)
            sampleBody Store.empty).store = after ∧
          after.transactions key = some transaction ∧ after.orders key = some order :=
  ⟨sample_body_order, sample_response_data, sample_response_result, sample_result_metadata, rfl,
    checkout_keys_aligned sampleFirestore sampleDiv (.num 17) sampleBody sampleResponse
      (.obj [("status", .bool true), ("data", sampleResult)]) sampleResult sampleDraft
      (.obj [("user_id", .str "U1")]) Store.empty sample_body_order sample_response_data
      sample_response_result sample_result_metadata rfl⟩

/-- C6 at the sample result, whose own status is "success", and the sample draft,
whose own status is "done". -/
theorem order_status_pending_witness :
    getProp sampleResult "metadata" = .ok (.obj [("user_id", .str "U1")]) ∧
    isNullish (.obj [("user_id", .str "U1")]) = false ∧
    ∃ transaction order,
      checkoutRecords sampleDiv (.num 17) sampleResult sampleDraft = .ok (transaction, order) ∧
      getProp order "status" = .ok (.str "pending") :=
  ⟨sample_result_metadata, rfl,
    order_status_pending sampleDiv (.num 17) sampleResult sampleDraft
      (.obj [("user_id", .str "U1")]) sample_result_metadata rfl⟩

/-- C8 at the sample result and the sample draft, whose own `user_id` is "U9". -/
theorem order_user_and_draft_fields_witness :
    getProp sampleResult "metadata" = .ok (.obj [("user_id", .str "U1")]) ∧
    isNullish (.obj [("user_id", .str "U1")]) = false ∧
    ∃ transaction fields user,
      getProp (.obj [("user_id", .str "U1")]) "user_id" = .ok user ∧
      checkoutRecords sampleDiv (.num 17) sampleResult sampleDraft
        = .ok (transaction, .obj fields) ∧
      getField fields "user_id" = some user ∧
      ∀ k, k ∉ ["id", "transaction_ref", "status", "user_id", "order_date", "date"] →
        getField fields k = getField (ownEnumerable sampleDraft) k :=
  ⟨sample_result_metadata, rfl,
    order_user_and_draft_fields sampleDiv (.num 17) sampleResult sampleDraft
      (.obj [("user_id", .str "U1")]) sample_result_metadata rfl⟩

/-- C4 at a `charge.success` event whose data reports status "failed". -/
theorem webhook_charge_success_update_witness :
    getProp sampleFailedHook "event" = .ok (.str "charge.success") ∧
    getProp sampleFailedHook "data"
      = .ok (.obj [("status", .str "failed"), ("reference", .str "T1")]) ∧
    getProp (.obj [("status", .str "failed"), ("reference", .str "T1")]) "status"
      = .ok (.str "failed") ∧
    getProp (.obj [("status", .str "failed"), ("reference", .str "T1")]) "reference"
      = .ok (.str "T1") ∧
    (Value.str "failed" = .str "success" →
      (webhookHandler sampleFirestore none sampleFailedHook sampleStore).calls
          = [⟨.str "T1", .str "paid", .str "success"⟩] ∧
      (webhookHandler sampleFirestore none sampleFailedHook sampleStore).store
          = settle sampleStore
              (updateOrder sampleFirestore none sampleStore (.str "T1") (.str "paid")
                (.str "success"))) ∧
    (Value.str "failed" ≠ .str "success" →
      (webhookHandler sampleFirestore none sampleFailedHook sampleStore).calls
          = [⟨.str "T1", .str "failed", .str "failed"⟩] ∧
      (webhookHandler sampleFirestore none sampleFailedHook sampleStore).store
          = settle sampleStore
              (updateOrder sampleFirestore none sampleStore (.str "T1") (.str "failed")
                (.str "failed"))) :=
  have he : getProp sampleFailedHook "event" = .ok (.str "charge.success") := by
    simp [getProp, sampleFailedHook, isNullish, ownEnumerable, getField]
  have hd : getProp sampleFailedHook "data"
      = .ok (.obj [("status", .str "failed"), ("reference", .str "T1")]) := by
    simp [getProp, sampleFailedHook, isNullish, ownEnumerable, getField]
  have hs : getProp (.obj [("status", .str "failed"), ("reference", .str "T1")]) "status"
      = .ok (.str "failed") := by
    simp [getProp, isNullish, ownEnumerable, getField]
  have hr : getProp (.obj [("status", .str "failed"), ("reference", .str "T1")]) "reference"
      = .ok (.str "T1") := by
    simp [getProp, isNullish, ownEnumerable, getField]
  ⟨he, hd, hs, hr,
    webhook_charge_success_update sampleFirestore none sampleFailedHook _ _ _ sampleStore
      he hd hs hr⟩

/-- C5 at an event of another type. -/
theorem webhook_other_event_noop_witness :
    getProp (.obj [("event", .str "transfer.success")]) "event"
      ≠ .ok (.str "charge.success") ∧
    (webhookHandler sampleFirestore none (.obj [("event", .str "transfer.success")])
      sampleStore).calls = [] ∧
    (webhookHandler sampleFirestore none (.obj [("event", .str "transfer.success")])
      sampleStore).store = sampleStore ∧
    (webhookHandler sampleFirestore none (.obj [("event", .str "transfer.success")])
      sampleStore).reply = .ok ⟨.num 200, .str "OK"⟩ :=
  have h : getProp (.obj [("event", .str "transfer.success")]) "event"
      ≠ .ok (.str "charge.success") := by
    simp [getProp, isNullish, ownEnumerable, getField]
  ⟨h, webhook_other_event_noop sampleFirestore none _ sampleStore h⟩

theorem sampleStore_reachable : Reachable sampleFirestore SharedId sampleStore :=
  Reachable.checkout Store.empty none _ _ Reachable.empty (by
    simp [SharedId, getProp, isNullish, ownEnumerable, getField])

/-- C9, amended, at the store reached by one accepted checkout. -/
theorem store_keys_aligned_witness :
    Reachable sampleFirestore SharedId sampleStore ∧
    SameKeys sampleStore ∧
    (∀ commitError transaction order after, SharedId transaction order →
      processCheckout sampleFirestore commitError sampleStore transaction order = .ok after →
      ∃ key, after = (sampleStore.put .Transactions key transaction).put .Orders key order) ∧
    (∀ commitError reference ts os key, sampleFirestore.docPath reference = some key →
      (sampleStore.transactions key = none ∨ sampleStore.orders key = none) →
      (∃ e, updateOrder sampleFirestore commitError sampleStore reference ts os = .error e) ∧
      settle sampleStore (updateOrder sampleFirestore commitError sampleStore reference ts os)
        = sampleStore) :=
  ⟨sampleStore_reachable, store_keys_aligned sampleFirestore sampleStore sampleStore_reachable⟩

/-! Section: rounding to binary64 -/

theorem roundHalfEven_intCast (z : ℤ) : roundHalfEven (z : ℚ) = z := by
  unfold roundHalfEven
  rw [Int.floor_intCast]
  norm_num

theorem roundBinary64_of_binary64 (q : ℚ) (h : Binary64 q) : roundBinary64 q = q := by
  obtain ⟨m, k, hm, hq⟩ := h
  unfold roundBinary64 ulp
  by_cases h0 : q = 0
  · subst h0
    simp [roundHalfEven]
  · have hpos : 0 < |q| := abs_pos.2 h0
    have h2 : (0 : ℚ) < (2 : ℚ) ^ k := zpow_pos (by norm_num) k
    have hmq : |(m : ℚ)| < (2 : ℚ) ^ (53 : ℤ) := by
      have hc : ((|m| : ℤ) : ℚ) < ((2 ^ 53 : ℤ) : ℚ) := Int.cast_lt.2 hm
      rw [Int.cast_abs] at hc
      norm_num at hc ⊢
      exact hc
    have hlt : |q| < ((2 : ℕ) : ℚ) ^ (53 + k) := by
      rw [hq, abs_mul, abs_of_pos h2, zpow_add₀ (by norm_num)]
      push_cast
      exact mul_lt_mul_of_pos_right hmq h2
    have hlog : Int.log 2 |q| < 53 + k := (Int.lt_zpow_iff_log_lt (by norm_num) hpos).1 hlt
    generalize Int.log 2 |q| = L at hlog ⊢
    obtain ⟨n, hn⟩ : ∃ n : ℕ, (n : ℤ) = k - (L - 52) :=
      ⟨(k - (L - 52)).toNat, Int.toNat_of_nonneg (by omega)⟩
    have hk : k = (L - 52) + n := by omega
    have hne : (2 : ℚ) ^ (L - 52) ≠ 0 := zpow_ne_zero _ (by norm_num)
    have hdiv : q / (2 : ℚ) ^ (L - 52) = ((m * 2 ^ n : ℤ) : ℚ) := by
      rw [div_eq_iff hne, hq, hk, zpow_add₀ (by norm_num)]
      push_cast
      rw [zpow_natCast]
      ring
    rw [hdiv, roundHalfEven_intCast, ← hdiv]
    exact div_mul_cancel₀ _ hne

theorem log_two_of_mem (q : ℚ) (e : ℤ) (h1 : (2 : ℚ) ^ e ≤ |q|) (h2 : |q| < (2 : ℚ) ^ (e + 1)) :
    Int.log 2 |q| = e := by
  have hpos : 0 < |q| := lt_of_lt_of_le (zpow_pos (by norm_num) e) h1
  have ha : e ≤ Int.log 2 |q| :=
    (Int.zpow_le_iff_le_log (by norm_num) hpos).1 (by exact_mod_cast h1)
  have hb : Int.log 2 |q| < e + 1 :=
    (Int.lt_zpow_iff_log_lt (by norm_num) hpos).1 (by exact_mod_cast h2)
  omega

theorem roundBinary64_fees_4999 :
    roundBinary64 ((4999 : ℚ) / 100) = 7035467042882847 / 140737488355328 := by
  have hl : Int.log 2 |(4999 : ℚ) / 100| = 5 :=
    log_two_of_mem _ 5 (by rw [abs_of_pos (by norm_num)]; norm_num)
      (by rw [abs_of_pos (by norm_num)]; norm_num)
  have hf : ⌊(4999 : ℚ) / 100 / (2 : ℚ) ^ ((5 : ℤ) - 52)⌋ = 7035467042882846 := by
    rw [Int.floor_eq_iff]
    constructor <;> norm_num
  unfold roundBinary64 ulp roundHalfEven
  rw [hl, hf]
  norm_num

theorem not_dyadic_4999 : ¬ Dyadic ((4999 : ℚ) / 100) := by
  rintro ⟨m, k, h⟩
  have h1 : (4999 : ℚ) * 2 ^ k = 100 * m := by
    field_simp at h
    linarith
  have h2 : (4999 : ℤ) * 2 ^ k = 100 * m := by exact_mod_cast h1
  have h5 : (5 : ℤ) ∣ 4999 * 2 ^ k := ⟨20 * m, by rw [h2]; ring⟩
  have hp : Prime (5 : ℤ) := Int.prime_iff_natAbs_prime.2 (by norm_num)
  rcases hp.dvd_or_dvd h5 with h | h
  · norm_num at h
  · have := hp.dvd_of_dvd_pow h
    norm_num at this

/-! Section: fees and binary64 division -/

theorem sample_fees_result_metadata :
    getProp sampleFeesResult "metadata" = .ok (.obj [("user_id", .str "U1")]) := by
  simp [getProp, sampleFeesResult, isNullish, ownEnumerable, getField]

theorem sample_fees_result_fees :
    getProp sampleFeesResult "fees" = .ok (.num 4999) := by
  simp [getProp, sampleFeesResult, isNullish, ownEnumerable, getField]

theorem sample_fees_result_amount :
    getProp sampleFeesResult "amount" = .ok (.num 5000) := by
  simp [getProp, sampleFeesResult, isNullish, ownEnumerable, getField]

/-- C7, the claim as stated fails: for a charge result with fees 4999 the transaction
stores the binary64 number 7035467042882847 / 2 ^ 47, which is not the exact
quotient 4999 / 100; no division that yields numbers with a power of two as
denominator, as every binary64 number has, can store that quotient. -/
theorem fees_4999_not_exact_quotient :
    ∃ transaction order,
      checkoutRecords jsDivide (.num 17) sampleFeesResult sampleDraft
        = .ok (transaction, order) ∧
      getProp transaction "fees" = .ok (.num (7035467042882847 / 140737488355328)) ∧
      getProp transaction "fees" ≠ .ok (.num (4999 / 100)) ∧
      ∀ jsDiv : Value → Value → Value, (∀ a b x, jsDiv a b = .num x → Dyadic x) →
        ∀ t o, checkoutRecords jsDiv (.num 17) sampleFeesResult sampleDraft = .ok (t, o) →
          getProp t "fees" ≠ .ok (.num (4999 / 100)) := by
  obtain ⟨t, o, hrec, _, hfees⟩ := transaction_amount_and_fees jsDivide (.num 17)
    sampleFeesResult sampleDraft _ _ _ sample_fees_result_metadata rfl
    sample_fees_result_amount sample_fees_result_fees
  have hval : getProp t "fees" = .ok (.num (7035467042882847 / 140737488355328)) := by
    rw [hfees]
    simp only [jsDivide]
    rw [if_neg (by norm_num), roundBinary64_fees_4999]
  refine ⟨t, o, hrec, hval, ?_, ?_⟩
  · rw [hval]
    intro h
    injection h with h
    injection h with h
    norm_num at h
  · intro jsDiv hdy t2 o2 hrec2 h
    obtain ⟨t3, o3, hrec3, _, hfees3⟩ := transaction_amount_and_fees jsDiv (.num 17)
      sampleFeesResult sampleDraft _ _ _ sample_fees_result_metadata rfl
      sample_fees_result_amount sample_fees_result_fees
    rw [hrec2] at hrec3
    injection hrec3 with hrec3
    injection hrec3 with ht ho
    subst ht
    rw [h] at hfees3
    injection hfees3 with hfees3
    exact not_dyadic_4999 (hdy _ _ _ hfees3.symm)

/-- C7, amended: for a checkout whose charge call succeeds with an integer fees value
`f`, the stored transaction fees are the JavaScript number `f / 100`, the quotient
rounded to the nearest binary64 number; they equal the exact quotient whenever that
quotient has a binary64 representation; the amount is stored unchanged. -/
theorem transaction_fees_binary64 (now result draft metadata amount : Value) (f : ℤ)
    (hm : getProp result "metadata" = .ok metadata) (hn : isNullish metadata = false)
    (ha : getProp result "amount" = .ok amount)
    (hf : getProp result "fees" = .ok (.num f)) :
    ∃ transaction order,
      checkoutRecords jsDivide now result draft = .ok (transaction, order) ∧
      getProp transaction "fees" = .ok (.num (roundBinary64 ((f : ℚ) / 100))) ∧
      (Binary64 ((f : ℚ) / 100) →
        getProp transaction "fees" = .ok (.num ((f : ℚ) / 100))) ∧
      getProp transaction "amount" = .ok amount := by
  obtain ⟨t, o, hrec, hamount, hfees⟩ := transaction_amount_and_fees jsDivide now
    result draft metadata amount (.num f) hm hn ha hf
  have hval : getProp t "fees" = .ok (.num (roundBinary64 ((f : ℚ) / 100))) := by
    rw [hfees]
    simp only [jsDivide]
    rw [if_neg (by norm_num)]
  refine ⟨t, o, hrec, hval, ?_, hamount⟩
  intro hb
  rw [hval, roundBinary64_of_binary64 _ hb]

/-- C7, amended, at the sample result: fees 5000, whose quotient 50 has a binary64
representation, and amount 5000. -/
theorem transaction_fees_binary64_witness :
    Binary64 (((5000 : ℤ) : ℚ) / 100) ∧
    getProp sampleResult "metadata" = .ok (.obj [("user_id", .str "U1")]) ∧
    isNullish (.obj [("user_id", .str "U1")]) = false ∧
    getProp sampleResult "amount" = .ok (.num 5000) ∧
    getProp sampleResult "fees" = .ok (.num ((5000 : ℤ) : ℚ)) ∧
    ∃ transaction order,
      checkoutRecords jsDivide (.num 17) sampleResult sampleDraft
        = .ok (transaction, order) ∧
      getProp transaction "fees" = .ok (.num (roundBinary64 (((5000 : ℤ) : ℚ) / 100))) ∧
      (Binary64 (((5000 : ℤ) : ℚ) / 100) →
        getProp transaction "fees" = .ok (.num (((5000 : ℤ) : ℚ) / 100))) ∧
      getProp transaction "amount" = .ok (.num 5000) :=
  have ha : getProp sampleResult "amount" = .ok (.num 5000) := by
    simp [getProp, sampleResult, isNullish, ownEnumerable, getField]
  have hf : getProp sampleResult "fees" = .ok (.num ((5000 : ℤ) : ℚ)) := by
    simp [getProp, sampleResult, isNullish, ownEnumerable, getField]
  ⟨⟨50, 0, by norm_num, by norm_num⟩, sample_result_metadata, rfl, ha, hf,
    transaction_fees_binary64 (.num 17) sampleResult sampleDraft
      (.obj [("user_id", .str "U1")]) (.num 5000) 5000 sample_result_metadata rfl ha hf⟩

end TardiEats
